import Mathlib

/-!
# Verification of the `slug_sweep_deduper` deduplication sweep engine

A shallow embedding, in Lean 4, of the core of the `slug_sweep_deduper`
repository, together with theorems settling the specification claims about
it.  The embedding follows the Python sources:

* `src/slug_sweep_deduper/utils.py` — path mapping between the local mount
  and the catalog's canonical forward-slash representation
  (`build_file_path`, `extract_server_dirs`, `normalize_path_for_query`);
* `src/slug_sweep_deduper/filters.py` — the filter predicates and
  `ACTIVE_FILTERS` registry;
* `src/slug_sweep_deduper/service.py` — the `SweepDB` ledger operations and
  the `ArchivesAppDB` catalog queries (`find_duplicates_in_location`,
  `get_all_locations_for_file`);
* `src/slug_sweep_deduper/sweep.py` — `apply_filters`, `group_by_file_id`
  and the interactive review loop of `run_sweep`.

Modelling conventions:

* A local filesystem path (a Python `pathlib.Path` on a POSIX host) is
  modelled as the list of its segments below the root; `str()` rendering
  joins them with `"/"` after a leading `"/"`.
* Catalog-style strings (always forward-slash separated) are kept as Lean
  `String`s; the `PurePosixPath` parser is modelled by splitting the
  character list on `'/'`.
* SQLite tables are lists of rows in insertion order; `AUTOINCREMENT`
  identifiers are `length + 1` at insertion time.  Timestamps carry no
  information used by any claim and are omitted from the rows.
* The external collaborators (the PostgreSQL catalog, the Archives App
  deletion API, the wall clock and the sync destination) are oracles
  packaged in an `Env` structure; exceptions are explicit outcome values.
-/

namespace SlugSweep

/-! ## Path mapping (`src/slug_sweep_deduper/utils.py`)

A local path is its list of segments below the filesystem root. -/

/-- Rendering of an absolute local path (`str()` of a `pathlib.Path` on a
POSIX host): a leading slash followed by the segments joined with `/`. -/
def renderLocalAbs (segs : List String) : String :=
  "/" ++ String.mk (List.intercalate ['/'] (segs.map String.data))

/-- The pieces of a catalog-style forward-slash string: the character list
split on `'/'`, each piece read back as a string. -/
def slashPieces (s : String) : List String :=
  (s.data.splitOn '/').map (fun cs => String.mk cs)

/-- The non-root components of `PurePosixPath(s).parts`: empty pieces (from
repeated or trailing slashes) and single-dot pieces are dropped. -/
def posixSegs (s : String) : List String :=
  (slashPieces s).filter (fun seg => decide (seg ≠ "" ∧ seg ≠ "."))

/-- Model of `PurePosixPath(s).parts`: a string beginning with `'/'`
contributes the root part `"/"` in front of its components. -/
def purePosixParts (s : String) : List String :=
  if s.data.head? = some '/' then "/" :: posixSegs s else posixSegs s

/-- Model of `Path.joinpath` folding over parts: the root part `"/"` is an
absolute path and resets the accumulated path to the filesystem root. -/
def joinParts (base : List String) (parts : List String) : List String :=
  parts.foldl (fun acc p => if p = "/" then [] else acc ++ [p]) base

/-- Model of `utils.build_file_path`: interpret `server_dir` as a POSIX relative path
and join its parts (and then the filename, when one is given and non-empty —
`if filename:` in Python is false for `""`) onto the base mount. -/
def build_file_path (base_mount : List String) (server_dir : String)
    (filename : Option String) : List String :=
  let full_path := joinParts base_mount (purePosixParts server_dir)
  match filename with
  | some f => if f = "" then full_path else joinParts full_path (purePosixParts f)
  | none => full_path

/-- Model of `Path.resolve()` on an absolute path: `.` segments vanish and
`..` pops the previous segment (at the root, `..` stays at the root).
Symbolic links are not modelled. -/
def resolveSegs (segs : List String) : List String :=
  segs.foldl
    (fun acc seg =>
      if seg = "." then acc
      else if seg = ".." then acc.dropLast
      else acc ++ [seg]) []

/-- Rendering of `str(PurePosixPath(rel))` for a relative path: the segments
joined with `/`, or `"."` for the empty relative path. -/
def renderPosixRel (segs : List String) : String :=
  if segs.isEmpty then "." else String.mk (List.intercalate ['/'] (segs.map String.data))

/-- Model of `utils.extract_server_dirs`: resolve both paths, require the mount to be
a prefix of the full path (`Path.relative_to` raises `ValueError`
otherwise), and render the remainder with forward slashes. -/
def extract_server_dirs (full_path : List String) (base_mount : List String) :
    Except String String :=
  let full := resolveSegs full_path
  let base := resolveSegs base_mount
  if base.isPrefixOf full then
    Except.ok (renderPosixRel (full.drop base.length))
  else
    Except.error (renderLocalAbs full ++ " is not under " ++ renderLocalAbs base)

/-- Model of `utils.normalize_path_for_query`: forwards to `extract_server_dirs`. -/
def normalize_path_for_query (user_path : List String) (mount : List String) :
    Except String String :=
  extract_server_dirs user_path mount

/-- A catalog-canonical relative path: every slash-separated piece is
non-empty, contains no slash, and is neither `.` nor `..`.  (This is the
wellformedness the catalog guarantees for `file_server_directories`.) -/
def isCanonicalRelPath (P : String) : Bool :=
  (P.data.splitOn '/').all
    (fun cs => decide (cs ≠ [] ∧ '/' ∉ cs ∧ cs ≠ ['.'] ∧ cs ≠ ['.', '.']))

/-! ## Catalog data model (`src/slug_sweep_deduper/service.py`, `ArchivesAppDB`)

The remote catalog is the join of `file_locations` with `files`: one row per
physical location of a logical file. -/

/-- One row of `file_locations JOIN files`. -/
structure CatalogRow where
  file_id : Nat
  file_server_directories : String
  filename : String
  size : Nat
deriving Repr, DecidableEq

/-- A record returned by `ArchivesAppDB.find_duplicates_in_location` (the
dict with keys `archives_app_file_id, file_server_directories, filename,
size, loc_count`). -/
structure FileRecord where
  archives_app_file_id : Nat
  file_server_directories : String
  filename : String
  size : Nat
  loc_count : Nat
deriving Repr, DecidableEq

/-- Model of `ArchivesAppDB.find_duplicates_in_location`: the SQL first restricts the
CTE `locs` to rows whose `file_server_directories` equals the target
location, computes `COUNT(*) OVER (PARTITION BY fl.file_id)` **over that
restricted set**, and finally keeps the rows with `loc_count > 1`. -/
def find_duplicates_in_location (catalog : List CatalogRow) (target : String) :
    List FileRecord :=
  let locs := catalog.filter (fun r => r.file_server_directories == target)
  (locs.map (fun r =>
    { archives_app_file_id := r.file_id
      file_server_directories := r.file_server_directories
      filename := r.filename
      size := r.size
      loc_count := (locs.filter (fun s => s.file_id == r.file_id)).length })).filter
    (fun rec => rec.loc_count > 1)

/-- Modelled from the spec: `DuplicateFinder.findDuplicates(canonicalLocation)`
"must return only files whose duplicate count (across the whole catalog)
exceeds 1, restricted to those having at least one location equal to
canonicalLocation" — the per-file count ranges over every catalog row of
that `file_id`, not only the rows at the target location.  This definition
exists to be compared with `find_duplicates_in_location` above. -/
def findDuplicatesSpec (catalog : List CatalogRow) (target : String) :
    List FileRecord :=
  let atTarget := catalog.filter (fun r => r.file_server_directories == target)
  (atTarget.map (fun r =>
    { archives_app_file_id := r.file_id
      file_server_directories := r.file_server_directories
      filename := r.filename
      size := r.size
      loc_count := (catalog.filter (fun s => s.file_id == r.file_id)).length })).filter
    (fun rec => rec.loc_count > 1)

/-- A location row returned by `ArchivesAppDB.get_all_locations_for_file`
(keys `file_server_directories, filename, size`). -/
structure LocRow where
  file_server_directories : String
  filename : String
  size : Nat
deriving Repr, DecidableEq

instance : Inhabited LocRow := ⟨⟨"", "", 0⟩⟩

/-- Model of `ArchivesAppDB.get_all_locations_for_file`: every catalog row of the
given `file_id`, projected to its location fields. -/
def get_all_locations_for_file (catalog : List CatalogRow) (file_id : Nat) :
    List LocRow :=
  (catalog.filter (fun r => r.file_id == file_id)).map
    (fun r => ⟨r.file_server_directories, r.filename, r.size⟩)

/-! ## The ledger (`src/slug_sweep_deduper/service.py`, `SweepDB`)

The four tables created by `SweepDB._create_new_db`, as lists of rows in
insertion order.  `AUTOINCREMENT` ids are `length + 1` at insertion time. -/

/-- A row of `processed_locations`. -/
structure ProcessedLocation where
  id : Nat
  location_path : String
  duplicates_count : Nat
  completed : Bool
deriving Repr, DecidableEq

/-- A row of `processed_files`; `archives_app_file_id` carries a SQLite
`UNIQUE` constraint. -/
structure ProcessedFile where
  id : Nat
  archives_app_file_id : Nat
  processed_location_id : Nat
  decision : String
deriving Repr, DecidableEq

/-- A row of `deleted_files`. -/
structure DeletedFile where
  id : Nat
  processed_file_id : Nat
  path : String
  file_size : Nat
deriving Repr, DecidableEq

/-- A row of `errors`. -/
structure ErrorRecord where
  id : Nat
  operation : String
  message : String
  context : Option String
deriving Repr, DecidableEq

/-- The staging database: the four tables of the `SweepDB` schema. -/
structure Ledger where
  processed_locations : List ProcessedLocation
  processed_files : List ProcessedFile
  deleted_files : List DeletedFile
  errors : List ErrorRecord
deriving Repr, DecidableEq

/-- The freshly created empty database. -/
def emptyLedger : Ledger := ⟨[], [], [], []⟩

/-- Model of `SweepDB.is_file_processed`: existence check on `processed_files`. -/
def is_file_processed (l : Ledger) (archives_app_file_id : Nat) : Bool :=
  l.processed_files.any (fun pf => pf.archives_app_file_id == archives_app_file_id)

/-- Model of `SweepDB.record_processed_location`: insert and return `lastrowid`. -/
def record_processed_location (l : Ledger) (location_path : String)
    (duplicates_count : Nat) (completed : Bool) : Nat × Ledger :=
  let rid := l.processed_locations.length + 1
  (rid,
    { l with processed_locations :=
        l.processed_locations ++ [⟨rid, location_path, duplicates_count, completed⟩] })

/-- Model of `SweepDB.record_processed_file`: the `UNIQUE` constraint on
`archives_app_file_id` makes the insert raise `IntegrityError` when the id is
already present; otherwise insert and return `lastrowid`. -/
def record_processed_file (l : Ledger) (archives_app_file_id : Nat)
    (processed_location_id : Nat) (decision : String) :
    Except String (Nat × Ledger) :=
  if l.processed_files.any (fun pf => pf.archives_app_file_id == archives_app_file_id) then
    Except.error "UNIQUE constraint failed: processed_files.archives_app_file_id"
  else
    let rid := l.processed_files.length + 1
    Except.ok (rid,
      { l with processed_files :=
          l.processed_files ++
            [⟨rid, archives_app_file_id, processed_location_id, decision⟩] })

/-- Model of `SweepDB.record_deleted_file`. -/
def record_deleted_file (l : Ledger) (processed_file_id : Nat) (path : String)
    (file_size : Nat) : Ledger :=
  { l with deleted_files :=
      l.deleted_files ++
        [⟨l.deleted_files.length + 1, processed_file_id, path, file_size⟩] }

/-- Model of `SweepDB.log_error`. -/
def log_error (l : Ledger) (operation : String) (message : String)
    (context : Option String) : Ledger :=
  { l with errors :=
      l.errors ++ [⟨l.errors.length + 1, operation, message, context⟩] }

/-! ## Filters (`src/slug_sweep_deduper/filters.py`) and the filter pipeline
(`apply_filters` in `src/slug_sweep_deduper/sweep.py`) -/

/-- Model of `filters.no_filter`: never excludes. -/
def no_filter (_ : FileRecord) : Bool := false

/-- Model of `filters.ACTIVE_FILTERS`: only `no_filter` is enabled in the source. -/
def ACTIVE_FILTERS : List (FileRecord → Bool) := [no_filter]

/-- The inner loop of `sweep.apply_filters`: scan the filter list in order
and stop at the first filter that marks the record excluded. -/
def excludedBy : List (FileRecord → Bool) → FileRecord → Bool
  | [], _ => false
  | f :: fs, r => if f r then true else excludedBy fs r

/-- Model of `sweep.apply_filters`, generalised over the filter list it reads from
the `ACTIVE_FILTERS` registry: keep the records excluded by no filter. -/
def apply_filters (filters : List (FileRecord → Bool)) :
    List FileRecord → List FileRecord
  | [] => []
  | r :: rs =>
    if excludedBy filters r then apply_filters filters rs
    else r :: apply_filters filters rs

/-! ## Grouping (`group_by_file_id` in `src/slug_sweep_deduper/sweep.py`) -/

/-- The key sequence of the Python `defaultdict`: file ids in order of first
appearance. -/
def group_keys (records : List FileRecord) : List Nat :=
  records.foldl
    (fun ks r =>
      if ks.contains r.archives_app_file_id then ks
      else ks ++ [r.archives_app_file_id]) []

/-- Model of `sweep.group_by_file_id`: mapping from `archives_app_file_id` to the
records carrying it, keys in first-appearance order, values in encounter
order. -/
def group_by_file_id (records : List FileRecord) :
    List (Nat × List FileRecord) :=
  (group_keys records).map
    (fun k => (k, records.filter (fun r => r.archives_app_file_id == k)))

/-- The discovery → filter → already-processed-drop → group prefix of
`run_sweep` (`sweep.py` lines 192–213): the groups that will be offered to
the operator. -/
def sweep_candidates (l : Ledger) (catalog : List CatalogRow) (target : String) :
    List (Nat × List FileRecord) :=
  let duplicate_records := find_duplicates_in_location catalog target
  let filtered_records := apply_filters ACTIVE_FILTERS duplicate_records
  let unprocessed_records :=
    filtered_records.filter (fun r => !(is_file_processed l r.archives_app_file_id))
  group_by_file_id unprocessed_records

/-! ## The review loop (`run_sweep` in `src/slug_sweep_deduper/sweep.py`)

The interactive loop is driven by already-parsed operator commands (the
output of `parse_user_command` plus the answer to the deletion confirmation
prompt).  External collaborators and the wall clock are oracles in `Env`;
exceptions are explicit outcome values threaded through the loop. -/

/-- A parsed operator command (the result of `parse_user_command`).  For a
`delete`, `confirm` is the operator's answer to the `Confirm deletion?`
prompt. -/
inductive Cmd where
  | delete (numbers : List Int) (confirm : Bool)
  | keep
  | openFile (n : Int)
  | skip
  | quit
  | invalid
deriving Repr, DecidableEq

/-- The external collaborators of one sweep run. -/
structure Env where
  /-- The remote catalog contents (`file_locations JOIN files`). -/
  catalog : List CatalogRow
  /-- `FILE_SERVER_MOUNT`, as a local path. -/
  mount : List String
  /-- `ArchivesApp.enqueue_delete_edit`: for a path, the success flag and
  the error message reported on failure. -/
  appDelete : String → Bool × String
  /-- Whether the n-th `SweepDB.sync_to_storage` call of the run succeeds
  (a failure is a raised exception in the Python code). -/
  syncOk : Nat → Bool
  /-- `time.time()` as observed after the k-th file review. -/
  reviewTime : Nat → Nat
  /-- `time.time()` at `last_sync_time` initialisation (line 229). -/
  startTime : Nat

/-- The mutable state of one run: the staging ledger plus the observable
interaction traces. -/
structure SweepState where
  ledger : Ledger
  /-- Result of every `sync_to_storage` call so far, in order. -/
  syncCalls : List Bool
  /-- Snapshot of the ledger at every **successful** sync, in order. -/
  synced : List Ledger
  /-- Path argument of every `enqueue_delete_edit` call so far, in order. -/
  appCalls : List String
  /-- `last_sync_time`. -/
  lastSyncTime : Nat
deriving Repr

/-- Model of `SweepDB.sync_to_storage` as observed by the run: record the attempt,
snapshot the ledger on success, report the success flag (failure raises). -/
def sync_to_storage (env : Env) (st : SweepState) : SweepState × Bool :=
  let ok := env.syncOk st.syncCalls.length
  ({ st with
      syncCalls := st.syncCalls ++ [ok]
      synced := if ok then st.synced ++ [st.ledger] else st.synced }, ok)

/-- The in-range selection of a delete command (`sweep.py` line 299):
`[n for n in numbers if 1 <= n <= len(all_locations)]` — out-of-range
numbers are dropped, repeats are kept. -/
def valid_numbers (numbers : List Int) (loc_count : Nat) : List Int :=
  numbers.filter (fun n => decide (1 ≤ n ∧ n ≤ (loc_count : Int)))

/-- The location selected by an in-range number (`all_locations[num - 1]`). -/
def locOfNum (all_locations : List LocRow) (num : Int) : LocRow :=
  all_locations.getD (num.toNat - 1) default

/-- The local path built for a selected location (`build_file_path` followed
by `str()`). -/
def pathOfNum (mount : List String) (all_locations : List LocRow) (num : Int) :
    String :=
  let loc := locOfNum all_locations num
  renderLocalAbs (build_file_path mount loc.file_server_directories (some loc.filename))

/-- The per-selection deletion loop (`sweep.py` lines 333–359): for each
selected number, call `enqueue_delete_edit`; on success record a
`DeletedFile` row, on failure log an `errors` row with operation `delete`
and the attempted path as context, and continue with the remaining
selections. -/
def processDeletions (env : Env) (processed_file_id : Nat)
    (all_locations : List LocRow) : List Int → SweepState → SweepState
  | [], st => st
  | num :: rest, st =>
    let loc := locOfNum all_locations num
    let file_path := pathOfNum env.mount all_locations num
    let st₁ := { st with appCalls := st.appCalls ++ [file_path] }
    let res := env.appDelete file_path
    let st₂ :=
      if res.1 then
        { st₁ with ledger := record_deleted_file st₁.ledger processed_file_id file_path loc.size }
      else
        { st₁ with ledger := log_error st₁.ledger "delete" res.2 (some file_path) }
    processDeletions env processed_file_id all_locations rest st₂

/-- What one handled command does to the prompt loop. -/
inductive CmdOutcome where
  /-- `continue`: re-prompt for the same file. -/
  | cont
  /-- `break`: move on to the next file. -/
  | brk
  /-- `return`: the quit path ends the whole sweep. -/
  | ret
  /-- A raised exception with its message. -/
  | exc (msg : String)
deriving Repr, DecidableEq

/-- One iteration of the inner prompt loop of `run_sweep` (lines 255–362):
dispatch one parsed command for the file under review. -/
def handleCmd (env : Env) (location_id : Nat) (file_id : Nat)
    (all_locations : List LocRow) (cmd : Cmd) (st : SweepState) :
    SweepState × CmdOutcome :=
  match cmd with
  | .invalid => (st, .cont)
  | .quit =>
    let (st', ok) := sync_to_storage env st
    if ok then (st', .ret) else (st', .exc "sync failed")
  | .skip => (st, .brk)
  | .keep =>
    match record_processed_file st.ledger file_id location_id "kept_all" with
    | .ok (_, l') => ({ st with ledger := l' }, .brk)
    | .error msg => (st, .exc msg)
  | .openFile _ => (st, .cont)
  | .delete numbers confirm =>
    let valid := valid_numbers numbers all_locations.length
    if valid.isEmpty then (st, .cont)
    else if !confirm then (st, .cont)
    else
      let decision :=
        if valid.length = all_locations.length then "deleted_all" else "deleted_some"
      match record_processed_file st.ledger file_id location_id decision with
      | .error msg => (st, .exc msg)
      | .ok (processed_file_id, l') =>
        (processDeletions env processed_file_id all_locations valid
          { st with ledger := l' }, .brk)

/-- How the review of one file ended. -/
inductive ReviewOut where
  /-- The inner loop hit `break`; review continues with the next file. -/
  | finished
  /-- The quit command returned from `run_sweep`. -/
  | quitted
  /-- The command stream ran dry: the Python loop would block on the prompt
  forever.  Totalisation artefact of the model. -/
  | stuck
  /-- An exception escaped the inner loop. -/
  | excd (msg : String)
deriving Repr, DecidableEq

/-- The inner `while True` prompt loop for one file, consuming the command
stream. -/
def reviewFile (env : Env) (location_id : Nat) (file_id : Nat)
    (all_locations : List LocRow) :
    List Cmd → SweepState → SweepState × List Cmd × ReviewOut
  | [], st => (st, [], .stuck)
  | c :: rest, st =>
    match handleCmd env location_id file_id all_locations c st with
    | (st', .cont) => reviewFile env location_id file_id all_locations rest st'
    | (st', .brk) => (st', rest, .finished)
    | (st', .ret) => (st', rest, .quitted)
    | (st', .exc m) => (st', rest, .excd m)

/-- How the `try` block of `run_sweep` ended. -/
inductive TryOut where
  /-- Early return: `find_duplicates_in_location` returned nothing. -/
  | noDuplicates
  /-- Early return: every group was already processed. -/
  | allProcessed
  /-- The `for` loop over the files ran to the end. -/
  | completed
  /-- The operator quit. -/
  | quitted
  /-- The command stream ran dry (model totalisation of blocking). -/
  | stuck
  /-- An exception reached the sweep-level `except` handler. -/
  | excd (msg : String)
deriving Repr, DecidableEq

/-- The `for file_id in file_ids` loop of `run_sweep` (lines 234–369),
including the periodic checkpoint after each review: if at least 600 seconds
elapsed since `last_sync_time`, call `sync_to_storage` — a failure there
raises out of the loop. -/
def reviewLoop (env : Env) (location_id : Nat) :
    List Nat → List Cmd → Nat → SweepState → SweepState × TryOut
  | [], _, _, st => (st, .completed)
  | file_id :: rest_files, cmds, k, st =>
    let all_locations := get_all_locations_for_file env.catalog file_id
    match reviewFile env location_id file_id all_locations cmds st with
    | (st', _, .quitted) => (st', .quitted)
    | (st', _, .stuck) => (st', .stuck)
    | (st', _, .excd m) => (st', .excd m)
    | (st', restCmds, .finished) =>
      let current_time := env.reviewTime k
      if current_time - st'.lastSyncTime ≥ 600 then
        match sync_to_storage env st' with
        | (st'', true) =>
          reviewLoop env location_id rest_files restCmds (k + 1)
            { st'' with lastSyncTime := current_time }
        | (st'', false) => (st'', .excd "sync failed")
      else
        reviewLoop env location_id rest_files restCmds (k + 1) st'

/-- The body of the `try` block of `run_sweep` (lines 185–372): normalise
the operator path, query for duplicates, filter, drop processed files,
group, record the `ProcessedLocation`, and run the review loop. -/
def sweepTryBody (env : Env) (location_path : List String) (cmds : List Cmd)
    (st : SweepState) : SweepState × TryOut :=
  match normalize_path_for_query location_path env.mount with
  | .error msg => (st, .excd msg)
  | .ok target =>
    let duplicate_records := find_duplicates_in_location env.catalog target
    if duplicate_records.isEmpty then (st, .noDuplicates)
    else
      let filtered_records := apply_filters ACTIVE_FILTERS duplicate_records
      let unprocessed_records :=
        filtered_records.filter
          (fun r => !(is_file_processed st.ledger r.archives_app_file_id))
      let grouped := group_by_file_id unprocessed_records
      if grouped.isEmpty then (st, .allProcessed)
      else
        let (location_id, l') :=
          record_processed_location st.ledger (renderLocalAbs location_path)
            grouped.length false
        let st₁ := { st with ledger := l', lastSyncTime := env.startTime }
        reviewLoop env location_id (grouped.map Prod.fst) cmds 0 st₁

/-- The observable outcome of one `run_sweep` call. -/
structure RunResult where
  ledger : Ledger
  syncCalls : List Bool
  synced : List Ledger
  appCalls : List String
  /-- How the `try` block ended (an `excd` was caught by the `except`). -/
  exit : TryOut
  /-- Whether the final sync in the `finally` block succeeded (its failure
  propagates out of `run_sweep`). -/
  finalSyncOk : Bool
deriving Repr

/-- The `SweepState` at entry of `run_sweep`'s `try` block. -/
def initialState (env : Env) (initialLedger : Ledger) : SweepState :=
  { ledger := initialLedger, syncCalls := [], synced := [], appCalls := []
    lastSyncTime := env.startTime }

/-- Model of `run_sweep` (lines 148–392): the `try` body, then the `except Exception`
handler (log to `errors` with operation `sweep` and the operator path as
context), then the `finally` block's final `sync_to_storage`. -/
def run_sweep (env : Env) (initialLedger : Ledger) (location_path : List String)
    (cmds : List Cmd) : RunResult :=
  let (st₁, out) := sweepTryBody env location_path cmds (initialState env initialLedger)
  let st₂ :=
    match out with
    | .excd msg =>
      { st₁ with ledger :=
          log_error st₁.ledger "sweep" msg (some (renderLocalAbs location_path)) }
    | _ => st₁
  let (st₃, ok) := sync_to_storage env st₂
  { ledger := st₃.ledger, syncCalls := st₃.syncCalls, synced := st₃.synced
    appCalls := st₃.appCalls, exit := out, finalSyncOk := ok }

/-! ## Concrete example inputs used by counterexamples and witnesses -/

/-- The §8 scenario catalog: logical file 7 exists at `A/x.dwg` and
`B/x.dwg`, 500000 bytes each. -/
def exCatalogAB : List CatalogRow :=
  [⟨7, "A", "x.dwg", 500000⟩, ⟨7, "B", "x.dwg", 500000⟩]

/-- The two locations of file 7 in `exCatalogAB`. -/
def exLocationsAB : List LocRow :=
  [⟨"A", "x.dwg", 500000⟩, ⟨"B", "x.dwg", 500000⟩]

/-- An environment over `exCatalogAB` where every collaborator call
succeeds. -/
def exEnvAB : Env :=
  { catalog := exCatalogAB, mount := ["mnt"]
    appDelete := fun _ => (true, ""), syncOk := fun _ => true
    reviewTime := fun _ => 0, startTime := 0 }

/-- An empty starting sweep state over an empty ledger. -/
def exState : SweepState :=
  { ledger := emptyLedger, syncCalls := [], synced := [], appCalls := []
    lastSyncTime := 0 }

/-- A catalog in which files 1 and 2 each have two physical locations in
directory `A` (so that `find_duplicates_in_location` reports both). -/
def exCatalogTwoFiles : List CatalogRow :=
  [⟨1, "A", "a1", 10⟩, ⟨1, "A", "a2", 10⟩, ⟨2, "A", "b1", 20⟩, ⟨2, "A", "b2", 20⟩]

/-- An environment where the checkpoint interval has always elapsed after a
review and every `sync_to_storage` call fails. -/
def exEnvSyncFail : Env :=
  { catalog := exCatalogTwoFiles, mount := ["mnt"]
    appDelete := fun _ => (true, ""), syncOk := fun _ => false
    reviewTime := fun _ => 600, startTime := 0 }

/-- The same environment with every `sync_to_storage` call succeeding. -/
def exEnvSyncOk : Env := { exEnvSyncFail with syncOk := fun _ => true }

/-- A ledger in which file 7 is already recorded as processed. -/
def exLedgerProcessed : Ledger :=
  { processed_locations := [⟨1, "/mnt/A", 1, false⟩]
    processed_files := [⟨1, 7, 1, "kept_all"⟩]
    deleted_files := [], errors := [] }

/-- Uniqueness of `archives_app_file_id` across `processed_files` (the
SQLite `UNIQUE` constraint as a table invariant). -/
def UniqueFileIds (l : Ledger) : Prop :=
  (l.processed_files.map (fun pf => pf.archives_app_file_id)).Nodup

/-! ## Helper lemmas: path mapping -/

theorem data_mk (cs : List Char) : (String.mk cs).data = cs := rfl

theorem mk_ne_mk {cs ds : List Char} (h : cs ≠ ds) :
    String.mk cs ≠ String.mk ds := by
  intro hmk
  exact h (congrArg String.data hmk)

/-- Joining clean parts (none of them the root part) onto a base is list
append. -/
theorem joinParts_eq_append (parts : List String) (base : List String)
    (h : ∀ p ∈ parts, p ≠ "/") : joinParts base parts = base ++ parts := by
  induction parts generalizing base with
  | nil => simp [joinParts]
  | cons p ps ih =>
    have hp : p ≠ "/" := h p (List.mem_cons_self p ps)
    have hps : ∀ q ∈ ps, q ≠ "/" := fun q hq => h q (List.mem_cons_of_mem p hq)
    simp only [joinParts, List.foldl_cons, if_neg hp]
    have := ih (base ++ [p]) hps
    simpa [joinParts, List.append_assoc] using this

theorem resolve_foldl_clean (parts : List String) (acc : List String)
    (h : ∀ p ∈ parts, p ≠ "." ∧ p ≠ "..") :
    List.foldl
      (fun acc seg =>
        if seg = "." then acc
        else if seg = ".." then acc.dropLast
        else acc ++ [seg]) acc parts = acc ++ parts := by
  induction parts generalizing acc with
  | nil => simp
  | cons p ps ih =>
    obtain ⟨h1, h2⟩ := h p (List.mem_cons_self p ps)
    have hps : ∀ q ∈ ps, q ≠ "." ∧ q ≠ ".." :=
      fun q hq => h q (List.mem_cons_of_mem p hq)
    simp only [List.foldl_cons, if_neg h1, if_neg h2]
    simpa [List.append_assoc] using ih (acc ++ [p]) hps

/-- Resolving a resolved base extended by clean segments changes nothing. -/
theorem resolveSegs_append_clean (M parts : List String)
    (hM : resolveSegs M = M) (h : ∀ p ∈ parts, p ≠ "." ∧ p ≠ "..") :
    resolveSegs (M ++ parts) = M ++ parts := by
  unfold resolveSegs at *
  rw [List.foldl_append, hM]
  exact resolve_foldl_clean parts M h

theorem isPrefixOf_append (M rest : List String) :
    M.isPrefixOf (M ++ rest) = true := by
  rw [ List.isPrefixOf_iff_prefix]
  exact ⟨rest, rfl⟩

/-- The canonicality hypotheses, unpacked for each splitOn piece. -/
theorem canonical_pieces {P : String} (hP : isCanonicalRelPath P = true) :
    ∀ cs ∈ P.data.splitOn '/',
      cs ≠ [] ∧ '/' ∉ cs ∧ cs ≠ ['.'] ∧ cs ≠ ['.', '.'] := by
  intro cs hcs
  have := (List.all_eq_true.mp hP) cs hcs
  exact of_decide_eq_true this

/-- A canonical relative path does not begin with a slash. -/
theorem canonical_head {P : String} (hP : isCanonicalRelPath P = true) :
    P.data.head? ≠ some '/' := by
  intro hhd
  cases hd : P.data with
  | nil => rw [hd] at hhd; exact Option.noConfusion hhd
  | cons c cs =>
    rw [hd] at hhd
    have hc : c = '/' := by
      have := Option.some.inj hhd
      simpa using this
    subst hc
    have hmem : [] ∈ P.data.splitOn '/' := by
      rw [hd]
      simp only [List.splitOn, List.splitOnP_cons, beq_self_eq_true, if_pos]
      exact List.mem_cons_self _ _
    exact ((canonical_pieces hP) [] hmem).1 rfl

/-- On a canonical relative path the posix component filter keeps every
piece. -/
theorem posixSegs_canonical {P : String} (hP : isCanonicalRelPath P = true) :
    posixSegs P = (P.data.splitOn '/').map (fun cs => String.mk cs) := by
  unfold posixSegs slashPieces
  apply List.filter_eq_self.mpr
  intro seg hseg
  obtain ⟨cs, hcs, rfl⟩ := List.mem_map.mp hseg
  obtain ⟨h1, _, h3, _⟩ := canonical_pieces hP cs hcs
  apply decide_eq_true
  exact ⟨mk_ne_mk h1, mk_ne_mk h3⟩

theorem purePosixParts_canonical {P : String} (hP : isCanonicalRelPath P = true) :
    purePosixParts P = (P.data.splitOn '/').map (fun cs => String.mk cs) := by
  unfold purePosixParts
  rw [if_neg (canonical_head hP)]
  exact posixSegs_canonical hP

/-- The parts of a canonical path are clean segments. -/
theorem canonical_parts_clean {P : String} (hP : isCanonicalRelPath P = true) :
    ∀ p ∈ (P.data.splitOn '/').map (fun cs => String.mk cs),
      p ≠ "/" ∧ p ≠ "." ∧ p ≠ ".." := by
  intro p hp
  obtain ⟨cs, hcs, rfl⟩ := List.mem_map.mp hp
  obtain ⟨h1, h2, h3, h4⟩ := canonical_pieces hP cs hcs
  refine ⟨mk_ne_mk ?_, mk_ne_mk h3, mk_ne_mk h4⟩
  intro hcs'
  subst hcs'
  exact h2 (List.mem_singleton_self '/')

/-- Re-joining the splitOn pieces with forward slashes recovers the
string. -/
theorem renderPosixRel_splitOn (P : String) :
    renderPosixRel ((P.data.splitOn '/').map (fun cs => String.mk cs)) = P := by
  unfold renderPosixRel
  have hne : P.data.splitOn '/' ≠ [] := by
    simp only [List.splitOn]
    exact List.splitOnP_ne_nil _ _
  rw [if_neg ?hempty]
  case hempty =>
    simp only [List.isEmpty_eq_true, List.map_eq_nil_iff]
    exact fun h => hne h
  rw [List.map_map]
  rw [show (String.data ∘ fun cs => String.mk cs) = id from rfl, List.map_id]
  rw [List.intercalate_splitOn]

/-! ## C7: path round trip -/

/-- C7: for every catalog-canonical forward-slash relative path `P` and
every (resolved) base mount `M`, localising `P` under `M` with
`build_file_path` and canonicalising the result back with
`normalize_path_for_query` / `extract_server_dirs` yields `P` again. -/
theorem C7_path_round_trip (M : List String) (P : String)
    (hP : isCanonicalRelPath P = true) (hM : resolveSegs M = M) :
    normalize_path_for_query (build_file_path M P none) M = Except.ok P := by
  have hparts := purePosixParts_canonical hP
  have hclean := canonical_parts_clean hP
  set parts := (P.data.splitOn '/').map (fun cs => String.mk cs) with hpdef
  have hbuild : build_file_path M P none = M ++ parts := by
    unfold build_file_path
    rw [hparts]
    exact joinParts_eq_append parts M (fun p hp => (hclean p hp).1)
  have hres : resolveSegs (M ++ parts) = M ++ parts :=
    resolveSegs_append_clean M parts hM
      (fun p hp => ⟨(hclean p hp).2.1, (hclean p hp).2.2⟩)
  unfold normalize_path_for_query extract_server_dirs
  rw [hbuild, hres, hM]
  rw [if_pos (isPrefixOf_append M parts)]
  rw [List.drop_left]
  rw [hpdef, renderPosixRel_splitOn]

/-- Witness for C7 at the mount `/mnt/records` and the canonical path
`42xx   Student Housing West/4203`. -/
theorem C7_path_round_trip_witness :
    isCanonicalRelPath "42xx   Student Housing West/4203" = true ∧
    resolveSegs ["mnt", "records"] = ["mnt", "records"] ∧
    normalize_path_for_query
      (build_file_path ["mnt", "records"] "42xx   Student Housing West/4203" none)
      ["mnt", "records"] = Except.ok "42xx   Student Housing West/4203" :=
  ⟨by decide, by decide,
    C7_path_round_trip ["mnt", "records"] "42xx   Student Housing West/4203"
      (by decide) (by decide)⟩

/-! ## C1: duplicate discovery counts only within the target location

The spec requires the duplicate count to range over the whole catalog; the
SQL computes the window count after the `WHERE` clause has restricted the
rows to the target location, so a file duplicated across two different
directories is not reported.  The spec's own §8 scenario (file 7 at
`A/x.dwg` and `B/x.dwg`, swept at `A`) exhibits the divergence. -/

/-- C1: on the §8 scenario catalog the implementation returns no record for
a sweep of location `A`, while the spec-modelled discovery returns the file
7 entry at `A` with catalog-wide duplicate count 2.  The claim is right
about the intended behaviour and the code diverges from it. -/
theorem C1_discovery_divergence :
    find_duplicates_in_location exCatalogAB "A" = [] ∧
    findDuplicatesSpec exCatalogAB "A" =
      [{ archives_app_file_id := 7, file_server_directories := "A"
         filename := "x.dwg", size := 500000, loc_count := 2 }] :=
  ⟨rfl, rfl⟩

/-! ## C8: the filter pipeline -/

/-- The short-circuiting scan over the filter list equals a disjunction over
all filters. -/
theorem excludedBy_eq_any (fs : List (FileRecord → Bool)) (r : FileRecord) :
    excludedBy fs r = fs.any (fun f => f r) := by
  induction fs with
  | nil => rfl
  | cons f fs ih =>
    by_cases h : f r <;> simp [excludedBy, h, ih]

/-- Lemma: `apply_filters` keeps exactly the records excluded by no filter. -/
theorem apply_filters_eq_filter (fs : List (FileRecord → Bool))
    (rs : List FileRecord) :
    apply_filters fs rs = rs.filter (fun r => !(fs.any (fun f => f r))) := by
  induction rs with
  | nil => rfl
  | cons r rs ih =>
    cases h : excludedBy fs r with
    | true =>
      have hany : (fs.any fun f => f r) = true := by
        rw [← excludedBy_eq_any fs r, h]
      simp [apply_filters, h, ih, List.filter_cons, hany]
    | false =>
      have hany : (fs.any fun f => f r) = false := by
        rw [← excludedBy_eq_any fs r, h]
      simp [apply_filters, h, ih, List.filter_cons, hany]

/-- Any-disjunctions agree across permutations of the filter list. -/
theorem any_eq_of_perm {fs fs' : List (FileRecord → Bool)}
    (h : fs.Perm fs') (r : FileRecord) :
    fs.any (fun f => f r) = fs'.any (fun f => f r) := by
  cases hv : fs.any (fun f => f r) with
  | true =>
    obtain ⟨f, hf, hfr⟩ := List.any_eq_true.mp hv
    exact (List.any_eq_true.mpr ⟨f, h.mem_iff.mp hf, hfr⟩).symm
  | false =>
    cases hv' : fs'.any (fun f => f r) with
    | false => rfl
    | true =>
      obtain ⟨f, hf, hfr⟩ := List.any_eq_true.mp hv'
      have : fs.any (fun f => f r) = true :=
        List.any_eq_true.mpr ⟨f, h.mem_iff.mpr hf, hfr⟩
      rw [hv] at this
      exact (Bool.false_ne_true this).elim

/-- C8: `apply_filters` returns exactly the subsequence of records for
which no predicate fires (exclusion is the OR of all predicates), and the
result — hence the excluded set — is invariant under permutation of the
predicate list. -/
theorem C8_filter_pipeline (filters filters' : List (FileRecord → Bool))
    (records : List FileRecord) (hperm : filters.Perm filters') :
    apply_filters filters records =
      records.filter (fun r => !(filters.any (fun f => f r))) ∧
    apply_filters filters records = apply_filters filters' records := by
  refine ⟨apply_filters_eq_filter filters records, ?_⟩
  rw [apply_filters_eq_filter, apply_filters_eq_filter]
  apply List.filter_congr
  intro r _
  rw [any_eq_of_perm hperm r]

/-- Witness for C8: the registry `[no_filter]` against its (trivial)
permutation on the §8 scenario records. -/
theorem C8_filter_pipeline_witness :
    apply_filters ACTIVE_FILTERS (findDuplicatesSpec exCatalogAB "A") =
      (findDuplicatesSpec exCatalogAB "A").filter
        (fun r => !(ACTIVE_FILTERS.any (fun f => f r))) ∧
    apply_filters ACTIVE_FILTERS (findDuplicatesSpec exCatalogAB "A") =
      apply_filters ACTIVE_FILTERS (findDuplicatesSpec exCatalogAB "A") :=
  C8_filter_pipeline ACTIVE_FILTERS ACTIVE_FILTERS
    (findDuplicatesSpec exCatalogAB "A") (List.Perm.refl _)

/-! ## C4: the ledger uniqueness invariant and no re-presentation -/

/-- Every key accumulated by the grouping fold comes from the accumulator or
from a record. -/
theorem group_keys_fold_mem (records : List FileRecord) (acc : List Nat)
    (k : Nat)
    (h : k ∈ records.foldl
      (fun ks r =>
        if ks.contains r.archives_app_file_id then ks
        else ks ++ [r.archives_app_file_id]) acc) :
    k ∈ acc ∨ ∃ r ∈ records, r.archives_app_file_id = k := by
  induction records generalizing acc with
  | nil => exact Or.inl h
  | cons r rs ih =>
    simp only [List.foldl_cons] at h
    rcases ih _ h with hacc | ⟨r', hr', hk⟩
    · by_cases hc : acc.contains r.archives_app_file_id
      · rw [if_pos hc] at hacc
        exact Or.inl hacc
      · rw [if_neg hc] at hacc
        rcases List.mem_append.mp hacc with h1 | h2
        · exact Or.inl h1
        · refine Or.inr ⟨r, List.mem_cons_self r rs, ?_⟩
          exact (List.mem_singleton.mp h2).symm
    · exact Or.inr ⟨r', List.mem_cons_of_mem r hr', hk⟩

/-- Every group key belongs to some input record. -/
theorem group_keys_mem {records : List FileRecord} {k : Nat}
    (h : k ∈ group_keys records) :
    ∃ r ∈ records, r.archives_app_file_id = k := by
  rcases group_keys_fold_mem records [] k h with habs | hr
  · exact absurd habs (List.not_mem_nil k)
  · exact hr

theorem group_by_file_id_keys (records : List FileRecord) :
    (group_by_file_id records).map Prod.fst = group_keys records := by
  unfold group_by_file_id
  rw [List.map_map]
  exact List.map_id _

/-- C4: the ledger invariant. `record_processed_file` preserves uniqueness
of `archives_app_file_id` and rejects a duplicate write with the constraint
violation; the other write operations leave `processed_files` untouched;
and a file id already recorded as processed never reappears among the
groups offered by a re-run of discovery, filtering and grouping on any
location. -/
theorem C4_ledger_invariant (l : Ledger) (fid location_id : Nat)
    (decision : String) (catalog : List CatalogRow) (target : String)
    (huniq : UniqueFileIds l) :
    (∀ rid l', record_processed_file l fid location_id decision =
        Except.ok (rid, l') → UniqueFileIds l') ∧
    (is_file_processed l fid = true →
      record_processed_file l fid location_id decision =
        Except.error "UNIQUE constraint failed: processed_files.archives_app_file_id") ∧
    (∀ lp dc c, UniqueFileIds (record_processed_location l lp dc c).2) ∧
    (∀ pfId p sz, UniqueFileIds (record_deleted_file l pfId p sz)) ∧
    (∀ op m ctx, UniqueFileIds (log_error l op m ctx)) ∧
    (is_file_processed l fid = true →
      fid ∉ (sweep_candidates l catalog target).map Prod.fst) := by
  refine ⟨?_, ?_, ?_, ?_, ?_, ?_⟩
  · intro rid l' hok
    unfold record_processed_file at hok
    by_cases hmem :
        l.processed_files.any (fun pf => pf.archives_app_file_id == fid)
    · rw [if_pos hmem] at hok
      exact absurd hok (by simp)
    · rw [if_neg hmem] at hok
      simp only [Except.ok.injEq, Prod.mk.injEq] at hok
      obtain ⟨-, hl'⟩ := hok
      subst hl'
      unfold UniqueFileIds at huniq ⊢
      simp only [List.map_append, List.map_cons, List.map_nil]
      rw [List.nodup_append]
      refine ⟨huniq, List.nodup_singleton _, ?_⟩
      intro a ha hb
      have hafid : a = fid := by simpa using hb
      subst hafid
      obtain ⟨pf, hpf, hpfa⟩ := List.mem_map.mp ha
      exact hmem (List.any_eq_true.mpr ⟨pf, hpf, by simp [hpfa]⟩)
  · intro hproc
    unfold record_processed_file
    rw [if_pos]
    exact hproc
  · intro lp dc c
    exact huniq
  · intro pfId p sz
    exact huniq
  · intro op m ctx
    exact huniq
  · intro hproc hmem
    unfold sweep_candidates at hmem
    rw [group_by_file_id_keys] at hmem
    obtain ⟨r, hr, hrk⟩ := group_keys_mem hmem
    have hfilt := List.of_mem_filter hr
    rw [hrk, hproc] at hfilt
    simp at hfilt

/-- Witness for C4 over the ledger that already records file 7 as
processed. -/
theorem C4_ledger_invariant_witness :
    record_processed_file exLedgerProcessed 7 1 "kept_all" =
      Except.error "UNIQUE constraint failed: processed_files.archives_app_file_id" ∧
    7 ∉ (sweep_candidates exLedgerProcessed exCatalogAB "A").map Prod.fst :=
  ⟨(C4_ledger_invariant exLedgerProcessed 7 1 "kept_all" exCatalogAB "A"
      (by unfold UniqueFileIds; decide)).2.1 (by decide),
   (C4_ledger_invariant exLedgerProcessed 7 1 "kept_all" exCatalogAB "A"
      (by unfold UniqueFileIds; decide)).2.2.2.2.2 (by decide)⟩

/-! ## C2, C6, C9, C10: the decision state machine of one file -/

/-- Trace characterisation of the per-selection deletion loop: every
selection is attempted in order; a `DeletedFile` row is appended exactly for
the successful enqueues and an `errors` row with operation `delete` and the
attempted path as context exactly for the failed ones; the other tables are
untouched. -/
theorem processDeletions_trace (env : Env) (pfId : Nat) (locs : List LocRow)
    (nums : List Int) (st : SweepState) :
    (processDeletions env pfId locs nums st).appCalls =
      st.appCalls ++ nums.map (pathOfNum env.mount locs) ∧
    (processDeletions env pfId locs nums st).ledger.deleted_files.map
        (fun d => (d.processed_file_id, d.path, d.file_size)) =
      st.ledger.deleted_files.map (fun d => (d.processed_file_id, d.path, d.file_size)) ++
        (nums.filter (fun n => (env.appDelete (pathOfNum env.mount locs n)).1)).map
          (fun n => (pfId, pathOfNum env.mount locs n, (locOfNum locs n).size)) ∧
    (processDeletions env pfId locs nums st).ledger.errors.map
        (fun e => (e.operation, e.message, e.context)) =
      st.ledger.errors.map (fun e => (e.operation, e.message, e.context)) ++
        (nums.filter (fun n => !(env.appDelete (pathOfNum env.mount locs n)).1)).map
          (fun n => ("delete", (env.appDelete (pathOfNum env.mount locs n)).2,
            some (pathOfNum env.mount locs n))) ∧
    (processDeletions env pfId locs nums st).ledger.processed_files =
      st.ledger.processed_files ∧
    (processDeletions env pfId locs nums st).ledger.processed_locations =
      st.ledger.processed_locations ∧
    (processDeletions env pfId locs nums st).syncCalls = st.syncCalls ∧
    (processDeletions env pfId locs nums st).synced = st.synced := by
  induction nums generalizing st with
  | nil => simp [processDeletions]
  | cons n rest ih =>
    have ih1 := fun st => (ih st).1
    have ih2 := fun st => (ih st).2.1
    have ih3 := fun st => (ih st).2.2.1
    have ih4 := fun st => (ih st).2.2.2.1
    have ih5 := fun st => (ih st).2.2.2.2.1
    have ih6 := fun st => (ih st).2.2.2.2.2.1
    have ih7 := fun st => (ih st).2.2.2.2.2.2
    cases happ : (env.appDelete (pathOfNum env.mount locs n)).1 with
    | true =>
      simp only [processDeletions, happ, if_true]
      refine ⟨?_, ?_, ?_, ?_, ?_, ?_, ?_⟩
      · rw [ih1]; simp [List.append_assoc]
      · rw [ih2]
        simp [record_deleted_file, List.filter_cons, happ, List.append_assoc]
      · rw [ih3]
        simp [record_deleted_file, List.filter_cons, happ]
      · rw [ih4]; simp [record_deleted_file]
      · rw [ih5]; simp [record_deleted_file]
      · rw [ih6]
      · rw [ih7]
    | false =>
      simp only [processDeletions, happ, if_false]
      refine ⟨?_, ?_, ?_, ?_, ?_, ?_, ?_⟩
      · rw [ih1]; simp [List.append_assoc]
      · rw [ih2]
        simp [log_error, List.filter_cons, happ]
      · rw [ih3]
        simp [log_error, List.filter_cons, happ, List.append_assoc]
      · rw [ih4]; simp [log_error]
      · rw [ih5]; simp [log_error]
      · rw [ih6]; simp
      · rw [ih7]; simp


/-- Evaluation of the confirmed-delete branch of `handleCmd` when the
in-range selection is non-empty and the file is not yet recorded: the
`ProcessedFile` row is inserted with the decision determined by comparing
the selection length with the location count, and the deletion loop runs
over the selection. -/
theorem handleCmd_delete_confirmed (env : Env) (location_id file_id : Nat)
    (locs : List LocRow) (numbers : List Int) (st : SweepState)
    (v : Int) (vs : List Int)
    (hval : valid_numbers numbers locs.length = v :: vs)
    (hp : is_file_processed st.ledger file_id = false) :
    handleCmd env location_id file_id locs (.delete numbers true) st =
      (processDeletions env (st.ledger.processed_files.length + 1) locs (v :: vs)
        { st with ledger := { st.ledger with processed_files :=
            st.ledger.processed_files ++
              [⟨st.ledger.processed_files.length + 1, file_id, location_id,
                if (v :: vs).length = locs.length then "deleted_all"
                else "deleted_some"⟩] } },
       .brk) := by
  have hguard : (st.ledger.processed_files.any
      (fun pf => pf.archives_app_file_id == file_id)) = false := hp
  simp only [handleCmd, hval, List.isEmpty_cons, Bool.not_true, if_false,
    record_processed_file, hguard, Bool.false_eq_true, Bool.not_false,
    if_true, ite_false]


/-- C2 counterexample: with the two-location file 7 of the §8 scenario,
the selection `1 1` (the first location twice) covers only a strict subset
of the locations, yet the recorded decision is `deleted_all`, because the
code compares the selection length (with repeats) to the location count. -/
theorem C2_counterexample :
    (handleCmd exEnvAB 1 7 exLocationsAB (.delete [1, 1] true) exState).2 =
      .brk ∧
    ((handleCmd exEnvAB 1 7 exLocationsAB (.delete [1, 1] true)
        exState).1.ledger.processed_files.map
      (fun pf => (pf.archives_app_file_id, pf.decision))) =
        [(7, "deleted_all")] ∧
    (2 : Int) ∉ ([1, 1] : List Int) :=
  ⟨rfl, rfl, by decide⟩

/-- C2 (amended): for a confirmed delete with a non-empty in-range
selection on an unprocessed file, the recorded decision is `deleted_all`
exactly when the number of in-range selections counted with multiplicity
equals the location count, and `deleted_some` exactly otherwise. -/
theorem C2_amended_decision (env : Env) (location_id file_id : Nat)
    (locs : List LocRow) (numbers : List Int) (st : SweepState)
    (hv : valid_numbers numbers locs.length ≠ [])
    (hp : is_file_processed st.ledger file_id = false) :
    ∃ st', handleCmd env location_id file_id locs (.delete numbers true) st =
        (st', .brk) ∧
      ∃ pf ∈ st'.ledger.processed_files,
        pf.archives_app_file_id = file_id ∧
        pf.processed_location_id = location_id ∧
        (pf.decision = "deleted_all" ↔
          (valid_numbers numbers locs.length).length = locs.length) ∧
        (pf.decision = "deleted_some" ↔
          (valid_numbers numbers locs.length).length ≠ locs.length) := by
  cases hval : valid_numbers numbers locs.length with
  | nil => exact absurd hval hv
  | cons v vs =>
    rw [handleCmd_delete_confirmed env location_id file_id locs numbers st v vs
      hval hp]
    refine ⟨_, rfl, ?_⟩
    refine ⟨⟨st.ledger.processed_files.length + 1, file_id, location_id,
      if (v :: vs).length = locs.length then "deleted_all"
      else "deleted_some"⟩, ?_, rfl, rfl, ?_, ?_⟩
    · rw [(processDeletions_trace env (st.ledger.processed_files.length + 1)
        locs (v :: vs) _).2.2.2.1]
      exact List.mem_append_right _ (List.mem_singleton_self _)
    · by_cases h : (v :: vs).length = locs.length
      · rw [if_pos h]
        exact ⟨fun _ => h, fun _ => rfl⟩
      · rw [if_neg h]
        exact ⟨fun hds => by simp at hds, fun hlen => absurd hlen h⟩
    · by_cases h : (v :: vs).length = locs.length
      · rw [if_pos h]
        exact ⟨fun hds => by simp at hds, fun hlen => absurd h hlen⟩
      · rw [if_neg h]
        exact ⟨fun _ => h, fun _ => rfl⟩


/-- Witness for C2 (amended): selecting only location 1 of the two-location
file 7 records `deleted_some`. -/
theorem C2_amended_decision_witness :
    ∃ st', handleCmd exEnvAB 1 7 exLocationsAB (.delete [1] true) exState =
        (st', .brk) ∧
      ∃ pf ∈ st'.ledger.processed_files,
        pf.archives_app_file_id = 7 ∧
        pf.processed_location_id = 1 ∧
        (pf.decision = "deleted_all" ↔
          (valid_numbers [1] exLocationsAB.length).length =
            exLocationsAB.length) ∧
        (pf.decision = "deleted_some" ↔
          (valid_numbers [1] exLocationsAB.length).length ≠
            exLocationsAB.length) :=
  C2_amended_decision exEnvAB 1 7 exLocationsAB [1] exState (by decide) rfl

/-- C6: for every selection passed to the deletion loop, the deletion
service is invoked with the selected location's path (so a failure does not
abort the remaining selections), a `DeletedFile` row is appended exactly for
the selections whose enqueue succeeded, and each failed enqueue appends an
`errors` row with operation `delete` and the attempted path as context. -/
theorem C6_deletion_rows_iff_success (env : Env) (processed_file_id : Nat)
    (locs : List LocRow) (nums : List Int) (st : SweepState) :
    (processDeletions env processed_file_id locs nums st).appCalls =
      st.appCalls ++ nums.map (pathOfNum env.mount locs) ∧
    (processDeletions env processed_file_id locs nums st).ledger.deleted_files.map
        (fun d => (d.processed_file_id, d.path, d.file_size)) =
      st.ledger.deleted_files.map
          (fun d => (d.processed_file_id, d.path, d.file_size)) ++
        (nums.filter (fun n => (env.appDelete (pathOfNum env.mount locs n)).1)).map
          (fun n => (processed_file_id, pathOfNum env.mount locs n,
            (locOfNum locs n).size)) ∧
    (processDeletions env processed_file_id locs nums st).ledger.errors.map
        (fun e => (e.operation, e.message, e.context)) =
      st.ledger.errors.map (fun e => (e.operation, e.message, e.context)) ++
        (nums.filter (fun n => !(env.appDelete (pathOfNum env.mount locs n)).1)).map
          (fun n => ("delete", (env.appDelete (pathOfNum env.mount locs n)).2,
            some (pathOfNum env.mount locs n))) :=
  ⟨(processDeletions_trace env processed_file_id locs nums st).1,
   (processDeletions_trace env processed_file_id locs nums st).2.1,
   (processDeletions_trace env processed_file_id locs nums st).2.2.1⟩

/-- C9: the skip command ends the file's review with no ledger write — all
four tables are unchanged, the processed check for the file id keeps its
value (so an unprocessed file stays unprocessed), and the candidate groups
of any future sweep over the same ledger are unchanged. -/
theorem C9_skip_writes_nothing (env : Env) (location_id file_id : Nat)
    (locs : List LocRow) (st : SweepState) (catalog : List CatalogRow)
    (target : String) :
    handleCmd env location_id file_id locs .skip st = (st, .brk) ∧
    (handleCmd env location_id file_id locs .skip st).1.ledger.processed_locations =
      st.ledger.processed_locations ∧
    (handleCmd env location_id file_id locs .skip st).1.ledger.processed_files =
      st.ledger.processed_files ∧
    (handleCmd env location_id file_id locs .skip st).1.ledger.deleted_files =
      st.ledger.deleted_files ∧
    (handleCmd env location_id file_id locs .skip st).1.ledger.errors =
      st.ledger.errors ∧
    is_file_processed
        (handleCmd env location_id file_id locs .skip st).1.ledger file_id =
      is_file_processed st.ledger file_id ∧
    sweep_candidates
        (handleCmd env location_id file_id locs .skip st).1.ledger catalog target =
      sweep_candidates st.ledger catalog target :=
  ⟨rfl, rfl, rfl, rfl, rfl, rfl, rfl⟩

/-- C10: in a delete command, out-of-range numbers are silently discarded
and the command is rejected (`continue`, no state change) only when no
number is in range; a confirmed in-range selection is processed with
multiplicity — one deletion-service invocation per occurrence, one
`DeletedFile` row per successful occurrence — and the recorded decision is
`deleted_all` exactly when the occurrence count equals the location
count. -/
theorem C10_delete_selection_semantics (env : Env) (location_id file_id : Nat)
    (locs : List LocRow) (numbers : List Int) (confirm : Bool)
    (st : SweepState) (hp : is_file_processed st.ledger file_id = false) :
    (valid_numbers numbers locs.length = [] →
      handleCmd env location_id file_id locs (.delete numbers confirm) st =
        (st, .cont)) ∧
    (valid_numbers numbers locs.length ≠ [] →
      ∃ st', handleCmd env location_id file_id locs (.delete numbers true) st =
          (st', .brk) ∧
        st'.appCalls = st.appCalls ++
          (valid_numbers numbers locs.length).map (pathOfNum env.mount locs) ∧
        st'.ledger.deleted_files.map
            (fun d => (d.processed_file_id, d.path, d.file_size)) =
          st.ledger.deleted_files.map
              (fun d => (d.processed_file_id, d.path, d.file_size)) ++
            ((valid_numbers numbers locs.length).filter
                (fun n => (env.appDelete (pathOfNum env.mount locs n)).1)).map
              (fun n => (st.ledger.processed_files.length + 1,
                pathOfNum env.mount locs n, (locOfNum locs n).size)) ∧
        ∃ pf ∈ st'.ledger.processed_files,
          pf.archives_app_file_id = file_id ∧
          (pf.decision = "deleted_all" ↔
            (valid_numbers numbers locs.length).length = locs.length)) := by
  constructor
  · intro hempty
    simp [handleCmd, hempty]
  · intro hv
    cases hval : valid_numbers numbers locs.length with
    | nil => exact absurd hval hv
    | cons v vs =>
      rw [handleCmd_delete_confirmed env location_id file_id locs numbers st
        v vs hval hp]
      refine ⟨_, rfl, ?_, ?_, ?_⟩
      · rw [(processDeletions_trace env (st.ledger.processed_files.length + 1)
          locs (v :: vs) _).1]
      · rw [(processDeletions_trace env (st.ledger.processed_files.length + 1)
          locs (v :: vs) _).2.1]
      · refine ⟨⟨st.ledger.processed_files.length + 1, file_id, location_id,
          if (v :: vs).length = locs.length then "deleted_all"
          else "deleted_some"⟩, ?_, rfl, ?_⟩
        · rw [(processDeletions_trace env
            (st.ledger.processed_files.length + 1) locs (v :: vs) _).2.2.2.1]
          exact List.mem_append_right _ (List.mem_singleton_self _)
        · by_cases h : (v :: vs).length = locs.length
          · rw [if_pos h]
            exact ⟨fun _ => h, fun _ => rfl⟩
          · rw [if_neg h]
            exact ⟨fun hds => by simp at hds, fun hlen => absurd hlen h⟩

/-- Witness for C10: on the two-location file 7, the selection `0 1 1 9`
has in-range occurrences `1 1`; both occurrences trigger an invocation and
a (successful) deletion row for the same path, and the decision is
`deleted_all` since the occurrence count is 2. -/
theorem C10_delete_selection_semantics_witness :
    ∃ st', handleCmd exEnvAB 1 7 exLocationsAB (.delete [0, 1, 1, 9] true)
        exState = (st', .brk) ∧
      st'.appCalls = exState.appCalls ++
        (valid_numbers [0, 1, 1, 9] exLocationsAB.length).map
          (pathOfNum exEnvAB.mount exLocationsAB) ∧
      st'.ledger.deleted_files.map
          (fun d => (d.processed_file_id, d.path, d.file_size)) =
        exState.ledger.deleted_files.map
            (fun d => (d.processed_file_id, d.path, d.file_size)) ++
          ((valid_numbers [0, 1, 1, 9] exLocationsAB.length).filter
              (fun n => (exEnvAB.appDelete
                (pathOfNum exEnvAB.mount exLocationsAB n)).1)).map
            (fun n => (exState.ledger.processed_files.length + 1,
              pathOfNum exEnvAB.mount exLocationsAB n,
              (locOfNum exLocationsAB n).size)) ∧
      ∃ pf ∈ st'.ledger.processed_files,
        pf.archives_app_file_id = 7 ∧
        (pf.decision = "deleted_all" ↔
          (valid_numbers [0, 1, 1, 9] exLocationsAB.length).length =
            exLocationsAB.length) :=
  (C10_delete_selection_semantics exEnvAB 1 7 exLocationsAB [0, 1, 1, 9] true
    exState rfl).2 (by decide)


/-! ## C3 and C5: checkpoint failures and the cleanup phase -/

/-- C3 counterexample: over a catalog with two reviewable files, a failing
checkpoint sync after the first review ends the run with the sync
exception and the second file is never reviewed (its pending keep command
is not applied), whereas the same commands with a succeeding sync do
process the second file. -/
theorem C3_counterexample :
    (run_sweep exEnvSyncFail emptyLedger ["mnt", "A"] [.skip, .keep]).exit =
      .excd "sync failed" ∧
    is_file_processed
      (run_sweep exEnvSyncFail emptyLedger ["mnt", "A"]
        [.skip, .keep]).ledger 2 = false ∧
    is_file_processed
      (run_sweep exEnvSyncOk emptyLedger ["mnt", "A"]
        [.skip, .keep]).ledger 2 = true :=
  ⟨rfl, rfl, rfl⟩

/-- C3 (amended): a failure of the periodic checkpoint sync aborts the
review loop — when the review of the current file finishes, the checkpoint
interval has elapsed and the sync attempt fails, the loop returns
immediately with the sync exception and the remaining files are not
reviewed; the exception is then handled at the sweep level (see the C5
cleanup theorem), which logs it and still runs the final sync. -/
theorem C3_amended_checkpoint_failure_aborts (env : Env)
    (location_id file_id : Nat) (rest_files : List Nat)
    (cmds restCmds : List Cmd) (k : Nat) (st st' : SweepState)
    (hrev : reviewFile env location_id file_id
      (get_all_locations_for_file env.catalog file_id) cmds st =
        (st', restCmds, .finished))
    (htime : env.reviewTime k - st'.lastSyncTime ≥ 600)
    (hsync : env.syncOk st'.syncCalls.length = false) :
    reviewLoop env location_id (file_id :: rest_files) cmds k st =
      ({ st' with syncCalls := st'.syncCalls ++ [false] },
        .excd "sync failed") := by
  simp only [reviewLoop, hrev, sync_to_storage, hsync, htime, if_pos,
    if_false, Bool.false_eq_true]

/-- Witness for C3 (amended): the first file is skipped, the elapsed time
reaches the checkpoint interval, the sync fails, and the loop aborts with
file 2 still pending. -/
theorem C3_amended_checkpoint_failure_aborts_witness :
    reviewLoop exEnvSyncFail 1 [1, 2] [.skip, .keep] 0 exState =
      ({ exState with syncCalls := exState.syncCalls ++ [false] },
        .excd "sync failed") :=
  C3_amended_checkpoint_failure_aborts exEnvSyncFail 1 1 [2] [.skip, .keep]
    [.keep] 0 exState exState rfl (by decide) rfl

/-- C5: however the `try` body of `run_sweep` ends — early return, normal
completion, quit, a dry command stream, or an exception — exactly one more
`sync_to_storage` attempt follows it (the `finally` cleanup), the run's
exit mirrors the body's outcome, and an exception has first been logged to
the errors table with operation `sweep` and the operator's location path
as context. -/
theorem C5_cleanup_always_syncs (env : Env) (l0 : Ledger)
    (location_path : List String) (cmds : List Cmd) :
    (run_sweep env l0 location_path cmds).syncCalls =
      (sweepTryBody env location_path cmds (initialState env l0)).1.syncCalls ++
        [env.syncOk (sweepTryBody env location_path cmds
          (initialState env l0)).1.syncCalls.length] ∧
    (run_sweep env l0 location_path cmds).exit =
      (sweepTryBody env location_path cmds (initialState env l0)).2 ∧
    (∀ msg,
      (sweepTryBody env location_path cmds (initialState env l0)).2 =
        .excd msg →
      ∃ e ∈ (run_sweep env l0 location_path cmds).ledger.errors,
        e.operation = "sweep" ∧ e.message = msg ∧
          e.context = some (renderLocalAbs location_path)) := by
  rcases h : sweepTryBody env location_path cmds (initialState env l0)
    with ⟨st₁, out⟩
  cases out with
  | excd msg =>
    refine ⟨?_, ?_, ?_⟩
    · simp [run_sweep, h, sync_to_storage, log_error]
    · simp [run_sweep, h]
    · intro m hm
      have hmm : m = msg := (TryOut.excd.inj hm).symm
      subst hmm
      refine ⟨⟨st₁.ledger.errors.length + 1, "sweep", m,
        some (renderLocalAbs location_path)⟩, ?_, rfl, rfl, rfl⟩
      simp [run_sweep, h, sync_to_storage, log_error]
  | noDuplicates =>
    exact ⟨by simp [run_sweep, h, sync_to_storage], by simp [run_sweep, h],
      fun m hm => by simp at hm⟩
  | allProcessed =>
    exact ⟨by simp [run_sweep, h, sync_to_storage], by simp [run_sweep, h],
      fun m hm => by simp at hm⟩
  | completed =>
    exact ⟨by simp [run_sweep, h, sync_to_storage], by simp [run_sweep, h],
      fun m hm => by simp at hm⟩
  | quitted =>
    exact ⟨by simp [run_sweep, h, sync_to_storage], by simp [run_sweep, h],
      fun m hm => by simp at hm⟩
  | stuck =>
    exact ⟨by simp [run_sweep, h, sync_to_storage], by simp [run_sweep, h],
      fun m hm => by simp at hm⟩

/-- Witness for C5: sweeping a path outside the mount raises inside the
`try` body; the run still performs the final sync attempt and the errors
table carries the `sweep` entry with the location as context. -/
theorem C5_cleanup_always_syncs_witness :
    (run_sweep exEnvAB emptyLedger ["other"] []).syncCalls =
      (sweepTryBody exEnvAB ["other"] []
          (initialState exEnvAB emptyLedger)).1.syncCalls ++
        [exEnvAB.syncOk (sweepTryBody exEnvAB ["other"] []
          (initialState exEnvAB emptyLedger)).1.syncCalls.length] ∧
    ∃ e ∈ (run_sweep exEnvAB emptyLedger ["other"] []).ledger.errors,
      e.operation = "sweep" ∧ e.message = "/other is not under /mnt" ∧
        e.context = some (renderLocalAbs ["other"]) :=
  ⟨(C5_cleanup_always_syncs exEnvAB emptyLedger ["other"] []).1,
   (C5_cleanup_always_syncs exEnvAB emptyLedger ["other"] []).2.2
     "/other is not under /mnt" rfl⟩

end SlugSweep
